import Mathlib

set_option maxRecDepth 100000

/-!
Verification of the glam fixed-size vector library (Vec3 / Vec4, IEEE-754
binary32 components).

The Go source computes with `float32` values; here binary32 is embedded as an
explicit datatype `F32` (sign / exponent / significand, one canonical NaN)
with executable arithmetic implementing IEEE-754 round-to-nearest-even.
Finite nonzero values are kept in the canonical form `±m·2^p` with
`2^23 ≤ m < 2^24` for normal numbers and `p = -149` for subnormals; the
well-formedness predicate `wf` captures this and operations are verified on
well-formed inputs where rounding identities matter.
-/

namespace Glam

/-- IEEE-754 binary32 values: one canonical NaN, signed infinities, signed
zeros, and finite nonzero values `±m·2^p`. -/
inductive F32 where
  | nan : F32
  | inf (sign : Bool) : F32
  | zero (sign : Bool) : F32
  | finite (sign : Bool) (p : Int) (m : Nat) : F32
  deriving DecidableEq

/-- Positive zero, the Go literal `0.0`. -/
def pzero : F32 := .zero false

/-- Negative zero. -/
def mzero : F32 := .zero true

/-- The Go literal `1.0` in canonical form `2^23 · 2^(-23)`. -/
def one : F32 := .finite false (-23) (2 ^ 23)

/-- Canonical-form predicate for `F32`: finite nonzero values carry a
24-bit significand, exponent in the binary32 range, and subnormals live at
the minimum exponent. -/
def wf : F32 → Bool
  | .finite _ p m =>
      decide (1 ≤ m) && decide (m < 2 ^ 24) && decide (-149 ≤ p) &&
      decide (p ≤ 104) && (decide (2 ^ 23 ≤ m) || decide (p = -149))
  | _ => true

/-- NaN test. -/
def isNaN : F32 → Bool
  | .nan => true
  | _ => false

/-- Infinity test. -/
def isInf : F32 → Bool
  | .inf _ => true
  | _ => false

/-- Zero test (either sign). -/
def isZero : F32 → Bool
  | .zero _ => true
  | _ => false

/-- IEEE-754 equality, the meaning of Go `==` on `float32`: NaN compares
unequal to everything and the two zeros compare equal. -/
def feq : F32 → F32 → Bool
  | .nan, _ => false
  | _, .nan => false
  | .zero _, .zero _ => true
  | .inf s, .inf t => s == t
  | .finite s p m, .finite t q n => s == t && p == q && m == n
  | _, _ => false

/-- IEEE-754 negation: flip the sign bit. -/
def fneg : F32 → F32
  | .nan => .nan
  | .inf s => .inf (!s)
  | .zero s => .zero (!s)
  | .finite s p m => .finite (!s) p m

/-- Fuel-driven floor of the base-2 logarithm; fuel `n` always suffices.
Written with a bare `Nat.rec` so that evaluation peels the fuel lazily
(one successor per recursive call) instead of building a course-of-values
tower over a large fuel literal. -/
def log2fuel (fuel : Nat) : Nat → Nat :=
  Nat.rec (motive := fun _ => Nat → Nat) (fun _ => 0)
    (fun _ ih n => if n ≤ 1 then 0 else ih (n / 2) + 1) fuel

/-- Floor of the base-2 logarithm of a positive natural. -/
def flog2 (n : Nat) : Nat := log2fuel n n

/-- Round the fraction `a / b` to the nearest natural, ties to even. -/
def rne (a b : Nat) : Nat :=
  let q := a / b
  let r := a % b
  if 2 * r < b then q
  else if b < 2 * r then q + 1
  else if q % 2 = 0 then q else q + 1

/-- Decide `2^e ≤ A / B` by cross-multiplying, for an integer `e`. -/
def pow2le (e : Int) (A B : Nat) : Bool :=
  if 0 ≤ e then decide (B * 2 ^ e.toNat ≤ A) else decide (B ≤ A * 2 ^ (-e).toNat)

/-- The magnitude of a rounding result, before the sign is attached. -/
inductive RShape where
  | rzero : RShape
  | rinf : RShape
  | rfin (p : Int) (m : Nat) : RShape

/-- Round the positive rational `A / B` (both positive) to a binary32
magnitude with round-to-nearest-even.  Underflow produces `rzero`,
overflow `rinf`. -/
def roundCore (A B : Nat) : RShape :=
  let e0 : Int := (flog2 A : Int) - (flog2 B : Int)
  let e : Int := if pow2le e0 A B then e0 else e0 - 1
  let p : Int := max (e - 23) (-149)
  let m := rne (A * 2 ^ (max (-p) 0).toNat) (B * 2 ^ (max p 0).toNat)
  if m = 0 then .rzero
  else if 2 ^ 24 ≤ m then
    (if 104 < p + 1 then .rinf else .rfin (p + 1) (2 ^ 23))
  else if 104 < p then .rinf
  else .rfin p m

/-- Round the positive rational `A / B` (both positive) to binary32 with
round-to-nearest-even, attaching sign `s`: the core of every arithmetic
operation. -/
def roundScaled (s : Bool) (A B : Nat) : F32 :=
  match roundCore A B with
  | .rzero => .zero s
  | .rinf => .inf s
  | .rfin p m => .finite s p m

/-- Round the signed scaled integer `±n·2^p` to binary32. -/
def roundAt (s : Bool) (n : Nat) (p : Int) : F32 :=
  if 0 ≤ p then roundScaled s (n * 2 ^ p.toNat) 1 else roundScaled s n (2 ^ (-p).toNat)

/-- Signed integer view of a significand. -/
def sInt (s : Bool) (m : Nat) : Int := if s then -(m : Int) else m

/-- IEEE-754 binary32 addition (Go `+` on `float32`). -/
def fadd : F32 → F32 → F32
  | .nan, _ => .nan
  | _, .nan => .nan
  | .inf s, .inf t => if s = t then .inf s else .nan
  | .inf s, _ => .inf s
  | _, .inf t => .inf t
  | .zero s, .zero t => .zero (s && t)
  | .zero _, y => y
  | x, .zero _ => x
  | .finite sa pa ma, .finite sb pb mb =>
    let q := min pa pb
    let z := sInt sa ma * 2 ^ (pa - q).toNat + sInt sb mb * 2 ^ (pb - q).toNat
    if z = 0 then .zero false
    else roundAt (decide (z < 0)) z.natAbs q

/-- IEEE-754 binary32 subtraction (Go `-` on `float32`). -/
def fsub : F32 → F32 → F32
  | .nan, _ => .nan
  | _, .nan => .nan
  | .inf s, .inf t => if s = t then .nan else .inf s
  | .inf s, _ => .inf s
  | _, .inf t => .inf (!t)
  | .zero s, .zero t => .zero (s && !t)
  | .zero _, y => fneg y
  | x, .zero _ => x
  | .finite sa pa ma, .finite sb pb mb =>
    let q := min pa pb
    let z := sInt sa ma * 2 ^ (pa - q).toNat - sInt sb mb * 2 ^ (pb - q).toNat
    if z = 0 then .zero false
    else roundAt (decide (z < 0)) z.natAbs q

/-- IEEE-754 binary32 multiplication (Go `*` on `float32`). -/
def fmul : F32 → F32 → F32
  | .nan, _ => .nan
  | _, .nan => .nan
  | .inf s, .inf t => .inf (xor s t)
  | .inf s, .finite t _ _ => .inf (xor s t)
  | .finite s _ _, .inf t => .inf (xor s t)
  | .inf _, .zero _ => .nan
  | .zero _, .inf _ => .nan
  | .zero s, .zero t => .zero (xor s t)
  | .zero s, .finite t _ _ => .zero (xor s t)
  | .finite s _ _, .zero t => .zero (xor s t)
  | .finite sa pa ma, .finite sb pb mb => roundAt (xor sa sb) (ma * mb) (pa + pb)

/-- IEEE-754 binary32 division (Go `/` on `float32`): in particular
`0/0 = NaN` and `x/0 = ±∞` for nonzero `x`, with no fault. -/
def fdiv : F32 → F32 → F32
  | .nan, _ => .nan
  | _, .nan => .nan
  | .inf _, .inf _ => .nan
  | .inf s, .zero t => .inf (xor s t)
  | .inf s, .finite t _ _ => .inf (xor s t)
  | .zero s, .inf t => .zero (xor s t)
  | .finite s _ _, .inf t => .zero (xor s t)
  | .zero _, .zero _ => .nan
  | .zero s, .finite t _ _ => .zero (xor s t)
  | .finite s _ _, .zero t => .inf (xor s t)
  | .finite sa pa ma, .finite sb pb mb =>
    roundScaled (xor sa sb) (ma * 2 ^ (max (pa - pb) 0).toNat)
      (mb * 2 ^ (max (pb - pa) 0).toNat)

/-- Fuel-driven integer square root; fuel `n` always suffices.  Written
with a bare `Nat.rec` for the same lazy-evaluation reason as `log2fuel`. -/
def isqrtFuel (fuel : Nat) : Nat → Nat :=
  Nat.rec (motive := fun _ => Nat → Nat) (fun n => n)
    (fun _ ih n =>
      if n ≤ 1 then n
      else
        let r := 2 * ih (n / 4)
        if (r + 1) * (r + 1) ≤ n then r + 1 else r) fuel

/-- Integer square root (floor). -/
def isqrt (n : Nat) : Nat := isqrtFuel n n

/-- Modelled from the spec: `math.Sqrt` of the repository's scalar math
package is not under `src/`; the spec pins it to standard IEEE-754
single-precision semantics, i.e. the correctly rounded square root
(`sqrt(±0) = ±0`, `sqrt` of a negative value is NaN). -/
def fsqrt : F32 → F32
  | .nan => .nan
  | .inf false => .inf false
  | .inf true => .nan
  | .zero s => .zero s
  | .finite true _ _ => .nan
  | .finite false p m =>
    let e : Int := p + (flog2 m : Int)
    let e2 : Int := (e + 200) / 2 - 100
    let u : Int := max (e2 - 23) (-149)
    let V : Nat := m * 2 ^ (p - 2 * u).toNat
    let r := isqrt V
    let m2 := if r * r + r + 1 ≤ V then r + 1 else r
    if m2 = 0 then .zero false
    else if 2 ^ 24 ≤ m2 then .finite false (u + 1) (2 ^ 23)
    else .finite false u m2

/-- Modelled from the spec: the repository's trigonometric helpers
(`math.Sin`, `math.Cos`) are not under `src/` and the spec only requires
standard library precision, not a bit-exact function; the rotation
operations are therefore parametrised by the pair of trig functions. -/
structure Trig where
  Sin : F32 → F32
  Cos : F32 → F32

/-- Modelled from the spec: executable model of `math.Sin`, a degree-13
Taylor polynomial of sine evaluated exactly in rationals and rounded once
to binary32 — correctly rounded for the small arguments used below. -/
def ratSin : F32 → F32
  | .nan => .nan
  | .inf _ => .nan
  | .zero s => .zero s
  | .finite s p m =>
    let n : Int := sInt s (m * 2 ^ (max p 0).toNat)
    let d : Int := (2 : Int) ^ (max (-p) 0).toNat
    let N : Int :=
      6227020800 * n * d ^ 12 - 1037836800 * n ^ 3 * d ^ 10 +
      51891840 * n ^ 5 * d ^ 8 - 1235520 * n ^ 7 * d ^ 6 +
      17160 * n ^ 9 * d ^ 4 - 156 * n ^ 11 * d ^ 2 + n ^ 13
    let D : Nat := 6227020800 * d.natAbs ^ 13
    if N = 0 then .zero s else roundScaled (decide (N < 0)) N.natAbs D

/-- Modelled from the spec: executable model of `math.Cos`, a degree-12
Taylor polynomial of cosine evaluated exactly in rationals and rounded once
to binary32 — correctly rounded for the small arguments used below. -/
def ratCos : F32 → F32
  | .nan => .nan
  | .inf _ => .nan
  | .zero _ => one
  | .finite _ p m =>
    let n : Int := (m : Int) * 2 ^ (max p 0).toNat
    let d : Int := (2 : Int) ^ (max (-p) 0).toNat
    let N : Int :=
      479001600 * d ^ 12 - 239500800 * n ^ 2 * d ^ 10 +
      19958400 * n ^ 4 * d ^ 8 - 665280 * n ^ 6 * d ^ 6 +
      11880 * n ^ 8 * d ^ 4 - 132 * n ^ 10 * d ^ 2 + n ^ 12
    let D : Nat := 479001600 * d.natAbs ^ 12
    if N = 0 then pzero else roundScaled (decide (N < 0)) N.natAbs D

/-- Modelled from the spec: the concrete instance of the trig helpers used
for closed-form evaluations. -/
def stdTrig : Trig := ⟨ratSin, ratCos⟩

/-- `Vec3` is a single-precision vector with 3 components. -/
structure Vec3 where
  X : F32
  Y : F32
  Z : F32
  deriving DecidableEq

/-- `Vec4` is a single-precision vector with 4 components. -/
structure Vec4 where
  X : F32
  Y : F32
  Z : F32
  W : F32
  deriving DecidableEq

/-- Modelled from the spec: `Vec2`, the 2-component single-precision vector
returned by `Vec3.Dehomogenized`; its source file is not under `src/` and
the spec describes it as a plain pair of 32-bit floats. -/
structure Vec2 where
  X : F32
  Y : F32
  deriving DecidableEq

/-- `Homogenized` returns the homogeneous coordinates of `a`. -/
def Vec3.Homogenized (a : Vec3) : Vec4 := ⟨a.X, a.Y, a.Z, one⟩

/-- `HomogenizedAsDirection` returns the homogeneous coordinates of a point
at infinity in the direction of `a`. -/
def Vec3.HomogenizedAsDirection (a : Vec3) : Vec4 := ⟨a.X, a.Y, a.Z, pzero⟩

/-- Returns the dehomogenization of `a` (perspective divide by `a.Z`). -/
def Vec3.Dehomogenized (a : Vec3) : Vec2 := ⟨fdiv a.X a.Z, fdiv a.Y a.Z⟩

/-- `Plus` returns the sum `a + b`. -/
def Vec3.Plus (a b : Vec3) : Vec3 := ⟨fadd a.X b.X, fadd a.Y b.Y, fadd a.Z b.Z⟩

/-- `Add` sets `a` to the sum `a + b`; the final receiver value after the
three sequential field updates. -/
def Vec3.Add (a b : Vec3) : Vec3 :=
  let a1 := { a with X := fadd a.X b.X }
  let a2 := { a1 with Y := fadd a1.Y b.Y }
  { a2 with Z := fadd a2.Z b.Z }

/-- `Minus` returns the difference `a - b`. -/
def Vec3.Minus (a b : Vec3) : Vec3 := ⟨fsub a.X b.X, fsub a.Y b.Y, fsub a.Z b.Z⟩

/-- `Subtract` sets `a` to the difference `a - b`. -/
def Vec3.Subtract (a b : Vec3) : Vec3 :=
  let a1 := { a with X := fsub a.X b.X }
  let a2 := { a1 with Y := fsub a1.Y b.Y }
  { a2 with Z := fsub a2.Z b.Z }

/-- `Inverse` returns the inverse (negation) of `a`. -/
def Vec3.Inverse (a : Vec3) : Vec3 := ⟨fneg a.X, fneg a.Y, fneg a.Z⟩

/-- `Invert` sets `a` to its inverse. -/
def Vec3.Invert (a : Vec3) : Vec3 :=
  let a1 := { a with X := fneg a.X }
  let a2 := { a1 with Y := fneg a1.Y }
  { a2 with Z := fneg a2.Z }

/-- `Times` returns the product of `a` with the scalar `s`. -/
def Vec3.Times (a : Vec3) (s : F32) : Vec3 := ⟨fmul a.X s, fmul a.Y s, fmul a.Z s⟩

/-- `Multiply` sets `a` to the product of `a` with the scalar `s`. -/
def Vec3.Multiply (a : Vec3) (s : F32) : Vec3 :=
  let a1 := { a with X := fmul a.X s }
  let a2 := { a1 with Y := fmul a1.Y s }
  { a2 with Z := fmul a2.Z s }

/-- `Slash` returns the division of `a` by the scalar `s`. -/
def Vec3.Slash (a : Vec3) (s : F32) : Vec3 := ⟨fdiv a.X s, fdiv a.Y s, fdiv a.Z s⟩

/-- `Divide` sets `a` to the division of `a` by the scalar `s`. -/
def Vec3.Divide (a : Vec3) (s : F32) : Vec3 :=
  let a1 := { a with X := fdiv a.X s }
  let a2 := { a1 with Y := fdiv a1.Y s }
  { a2 with Z := fdiv a2.Z s }

/-- `Cross` returns the cross product of `a` and `b`. -/
def Vec3.Cross (a b : Vec3) : Vec3 :=
  ⟨fsub (fmul a.Y b.Z) (fmul a.Z b.Y),
   fsub (fmul a.Z b.X) (fmul a.X b.Z),
   fsub (fmul a.X b.Y) (fmul a.Y b.X)⟩

/-- `Dot` returns the dot product of `a` and `b` (left-associated sum, as in
the Go expression). -/
def Vec3.Dot (a b : Vec3) : F32 :=
  fadd (fadd (fmul a.X b.X) (fmul a.Y b.Y)) (fmul a.Z b.Z)

/-- `Length` returns the euclidian length of `a`. -/
def Vec3.Length (a : Vec3) : F32 :=
  fsqrt (fadd (fadd (fmul a.X a.X) (fmul a.Y a.Y)) (fmul a.Z a.Z))

/-- `Normalized` returns `a/|a|`. -/
def Vec3.Normalized (a : Vec3) : Vec3 :=
  let length := fsqrt (fadd (fadd (fmul a.X a.X) (fmul a.Y a.Y)) (fmul a.Z a.Z))
  ⟨fdiv a.X length, fdiv a.Y length, fdiv a.Z length⟩

/-- `Normalize` sets `a` to `a/|a|`; the length is read from the receiver
before any field is mutated, as in the Go source. -/
def Vec3.Normalize (a : Vec3) : Vec3 :=
  let length := fsqrt (fadd (fadd (fmul a.X a.X) (fmul a.Y a.Y)) (fmul a.Z a.Z))
  let a1 := { a with X := fdiv a.X length }
  let a2 := { a1 with Y := fdiv a1.Y length }
  { a2 with Z := fdiv a2.Z length }

/-- `RotateX` rotates `v` around the X axis; `angle == 0.0` returns `v`. -/
def Vec3.RotateX (ops : Trig) (v : Vec3) (angle : F32) : Vec3 :=
  if feq angle pzero then v
  else
    let c := ops.Cos angle
    let s := ops.Sin angle
    ⟨v.X, fsub (fmul v.Y c) (fmul v.Z s), fadd (fmul v.Y s) (fmul v.Z c)⟩

/-- `RotateY` rotates `v` around the Y axis; `angle == 0.0` returns `v`. -/
def Vec3.RotateY (ops : Trig) (v : Vec3) (angle : F32) : Vec3 :=
  if feq angle pzero then v
  else
    let c := ops.Cos angle
    let s := ops.Sin angle
    ⟨fadd (fmul v.X c) (fmul v.Z s), v.Y, fadd (fmul (fneg v.X) s) (fmul v.Z c)⟩

/-- `RotateZ` rotates `v` around the Z axis; `angle == 0.0` returns `v`. -/
def Vec3.RotateZ (ops : Trig) (v : Vec3) (angle : F32) : Vec3 :=
  if feq angle pzero then v
  else
    let c := ops.Cos angle
    let s := ops.Sin angle
    ⟨fsub (fmul v.X c) (fmul v.Y s), fadd (fmul v.X s) (fmul v.Y c), v.Z⟩

/-- `RotateAxis` rotates `v` around `axis`, building the three matrix rows
exactly as the Go source writes them (including its asymmetric off-diagonal
terms); `angle == 0.0` returns `v`. -/
def Vec3.RotateAxis (ops : Trig) (v : Vec3) (axis : Vec3) (angle : F32) : Vec3 :=
  if feq angle pzero then v
  else
    let c := ops.Cos angle
    let s := ops.Sin angle
    let onemc := fsub one c
    let u := axis.Normalized
    let rm0 : Vec3 :=
      ⟨fadd (fmul u.X u.X) (fmul c (fsub one (fmul u.X u.X))),
       fsub (fmul (fmul u.X u.Y) onemc) (fmul s u.Z),
       fadd (fmul (fmul u.X u.Z) onemc) (fmul s u.Z)⟩
    let rm1 : Vec3 :=
      ⟨fadd (fmul (fmul u.X u.X) onemc) (fmul s u.Z),
       fadd (fmul u.Y u.Y) (fmul c (fsub one (fmul u.Y u.Y))),
       fsub (fmul (fmul u.Y u.Z) onemc) (fmul s u.X)⟩
    let rm2 : Vec3 :=
      ⟨fsub (fmul (fmul u.X u.Z) onemc) (fmul s u.Y),
       fadd (fmul (fmul u.Y u.Z) c) (fmul s u.X),
       fadd (fmul u.Z u.Z) (fmul c (fsub one (fmul u.Z u.Z)))⟩
    ⟨v.Dot rm0, v.Dot rm1, v.Dot rm2⟩

/-- `Dehomogenized` returns the dehomogenization of `a` (perspective divide
by `a.W`). -/
def Vec4.Dehomogenized (a : Vec4) : Vec3 := ⟨fdiv a.X a.W, fdiv a.Y a.W, fdiv a.Z a.W⟩

/-- `Plus` returns the sum `a + b`. -/
def Vec4.Plus (a b : Vec4) : Vec4 :=
  ⟨fadd a.X b.X, fadd a.Y b.Y, fadd a.Z b.Z, fadd a.W b.W⟩

/-- `Add` sets `a` to the sum `a + b`. -/
def Vec4.Add (a b : Vec4) : Vec4 :=
  let a1 := { a with X := fadd a.X b.X }
  let a2 := { a1 with Y := fadd a1.Y b.Y }
  let a3 := { a2 with Z := fadd a2.Z b.Z }
  { a3 with W := fadd a3.W b.W }

/-- `Minus` returns the difference `a - b`. -/
def Vec4.Minus (a b : Vec4) : Vec4 :=
  ⟨fsub a.X b.X, fsub a.Y b.Y, fsub a.Z b.Z, fsub a.W b.W⟩

/-- `Subtract` sets `a` to the difference `a - b`. -/
def Vec4.Subtract (a b : Vec4) : Vec4 :=
  let a1 := { a with X := fsub a.X b.X }
  let a2 := { a1 with Y := fsub a1.Y b.Y }
  let a3 := { a2 with Z := fsub a2.Z b.Z }
  { a3 with W := fsub a3.W b.W }

/-- `Inverse` returns the inverse (negation) of `a`. -/
def Vec4.Inverse (a : Vec4) : Vec4 := ⟨fneg a.X, fneg a.Y, fneg a.Z, fneg a.W⟩

/-- `Invert` sets `a` to its inverse. -/
def Vec4.Invert (a : Vec4) : Vec4 :=
  let a1 := { a with X := fneg a.X }
  let a2 := { a1 with Y := fneg a1.Y }
  let a3 := { a2 with Z := fneg a2.Z }
  { a3 with W := fneg a3.W }

/-- `Times` returns the product of `a` with the scalar `s`. -/
def Vec4.Times (a : Vec4) (s : F32) : Vec4 :=
  ⟨fmul a.X s, fmul a.Y s, fmul a.Z s, fmul a.W s⟩

/-- `Multiply` sets `a` to the product of `a` with the scalar `s`. -/
def Vec4.Multiply (a : Vec4) (s : F32) : Vec4 :=
  let a1 := { a with X := fmul a.X s }
  let a2 := { a1 with Y := fmul a1.Y s }
  let a3 := { a2 with Z := fmul a2.Z s }
  { a3 with W := fmul a3.W s }

/-- `Slash` returns the division of `a` by the scalar `s`. -/
def Vec4.Slash (a : Vec4) (s : F32) : Vec4 :=
  ⟨fdiv a.X s, fdiv a.Y s, fdiv a.Z s, fdiv a.W s⟩

/-- `Divide` sets `a` to the division of `a` by the scalar `s`. -/
def Vec4.Divide (a : Vec4) (s : F32) : Vec4 :=
  let a1 := { a with X := fdiv a.X s }
  let a2 := { a1 with Y := fdiv a1.Y s }
  let a3 := { a2 with Z := fdiv a2.Z s }
  { a3 with W := fdiv a3.W s }

/-- `Cross` returns the cross product of `a` and `b`: the XYZ cross product,
with the `W` field copied from `a`. -/
def Vec4.Cross (a b : Vec4) : Vec4 :=
  ⟨fsub (fmul a.Y b.Z) (fmul a.Z b.Y),
   fsub (fmul a.Z b.X) (fmul a.X b.Z),
   fsub (fmul a.X b.Y) (fmul a.Y b.X),
   a.W⟩

/-- `Dot` returns the 4-component dot product of `a` and `b`. -/
def Vec4.Dot (a b : Vec4) : F32 :=
  fadd (fadd (fadd (fmul a.X b.X) (fmul a.Y b.Y)) (fmul a.Z b.Z)) (fmul a.W b.W)

/-- `Dot3` returns the dot product restricted to the XYZ components. -/
def Vec4.Dot3 (a b : Vec4) : F32 :=
  fadd (fadd (fmul a.X b.X) (fmul a.Y b.Y)) (fmul a.Z b.Z)

/-- `Length` returns the euclidian length of `a`. -/
def Vec4.Length (a : Vec4) : F32 :=
  fsqrt (fadd (fadd (fadd (fmul a.X a.X) (fmul a.Y a.Y)) (fmul a.Z a.Z)) (fmul a.W a.W))

/-- `Normalized` returns `a/|a|`. -/
def Vec4.Normalized (a : Vec4) : Vec4 :=
  let length := fsqrt (fadd (fadd (fadd (fmul a.X a.X) (fmul a.Y a.Y)) (fmul a.Z a.Z)) (fmul a.W a.W))
  ⟨fdiv a.X length, fdiv a.Y length, fdiv a.Z length, fdiv a.W length⟩

/-- `Normalize` sets `a` to `a/|a|`; the length is read before mutation. -/
def Vec4.Normalize (a : Vec4) : Vec4 :=
  let length := fsqrt (fadd (fadd (fadd (fmul a.X a.X) (fmul a.Y a.Y)) (fmul a.Z a.Z)) (fmul a.W a.W))
  let a1 := { a with X := fdiv a.X length }
  let a2 := { a1 with Y := fdiv a1.Y length }
  let a3 := { a2 with Z := fdiv a2.Z length }
  { a3 with W := fdiv a3.W length }

/-- Each component of `v` is infinite or NaN. -/
def infNan3 (v : Vec3) : Prop :=
  (isInf v.X || isNaN v.X) = true ∧ (isInf v.Y || isNaN v.Y) = true ∧
  (isInf v.Z || isNaN v.Z) = true

/-- Each component of `v` is infinite or NaN. -/
def infNan4 (v : Vec4) : Prop :=
  (isInf v.X || isNaN v.X) = true ∧ (isInf v.Y || isNaN v.Y) = true ∧
  (isInf v.Z || isNaN v.Z) = true ∧ (isInf v.W || isNaN v.W) = true

/-- Each component of `v` is infinite or NaN. -/
def infNan2 (v : Vec2) : Prop :=
  (isInf v.X || isNaN v.X) = true ∧ (isInf v.Y || isNaN v.Y) = true

/-- Each component of `v` is NaN. -/
def nan3 (v : Vec3) : Prop :=
  isNaN v.X = true ∧ isNaN v.Y = true ∧ isNaN v.Z = true

/-- Each component of `v` is NaN. -/
def nan4 (v : Vec4) : Prop :=
  isNaN v.X = true ∧ isNaN v.Y = true ∧ isNaN v.Z = true ∧ isNaN v.W = true

end Glam

namespace Glam

theorem fmul_nan_left (x : F32) : fmul .nan x = .nan := by cases x <;> rfl

theorem fmul_nan_right (x : F32) : fmul x .nan = .nan := by cases x <;> rfl

theorem fadd_nan_left (x : F32) : fadd .nan x = .nan := by cases x <;> rfl

theorem fadd_nan_right (x : F32) : fadd x .nan = .nan := by cases x <;> rfl

theorem fsub_nan_left (x : F32) : fsub .nan x = .nan := by cases x <;> rfl

theorem fsub_nan_right (x : F32) : fsub x .nan = .nan := by cases x <;> rfl

theorem fneg_roundScaled (s : Bool) (A B : Nat) :
    fneg (roundScaled s A B) = roundScaled (!s) A B := by
  unfold roundScaled; cases roundCore A B <;> rfl

theorem roundScaled_not_nan (s : Bool) (A B : Nat) :
    isNaN (roundScaled s A B) = false := by
  unfold roundScaled; cases roundCore A B <;> rfl

theorem fneg_roundAt (s : Bool) (n : Nat) (p : Int) :
    fneg (roundAt s n p) = roundAt (!s) n p := by
  unfold roundAt; split <;> exact fneg_roundScaled ..

theorem roundAt_not_nan (s : Bool) (n : Nat) (p : Int) :
    isNaN (roundAt s n p) = false := by
  unfold roundAt; split <;> exact roundScaled_not_nan ..

theorem sInt_not (s : Bool) (m : Nat) : sInt (!s) m = -(sInt s m) := by
  cases s <;> simp [sInt]

theorem fneg_fneg (x : F32) : fneg (fneg x) = x := by cases x <;> simp [fneg]

theorem feq_refl (x : F32) (h : isNaN x = false) : feq x x = true := by
  cases x <;> simp [feq, isNaN] at h ⊢

theorem fsub_eq_fadd_fneg (x y : F32) : fsub x y = fadd x (fneg y) := by
  cases x <;> cases y <;>
    simp [fsub, fadd, fneg, sInt_not, sub_eq_add_neg, neg_mul]
  case inf.inf s t => cases s <;> cases t <;> rfl

theorem fmul_comm (x y : F32) : fmul x y = fmul y x := by
  cases x <;> cases y <;>
    simp [fmul, Bool.xor_comm, Nat.mul_comm, Int.add_comm]

theorem fsub_antisymm (x y : F32) (h : isNaN (fsub x y) = false) :
    feq (fsub x y) (fneg (fsub y x)) = true := by
  cases x <;> cases y
  case finite.finite sa pa ma sb pb mb =>
    simp only [fsub]
    rw [min_comm pb pa]
    set q := min pa pb with hqdef
    set za := sInt sa ma * 2 ^ (pa - q).toNat with hzadef
    set zb := sInt sb mb * 2 ^ (pb - q).toNat with hzbdef
    by_cases hz : za - zb = 0
    · rw [if_pos hz, if_pos (by omega : zb - za = 0)]
      rfl
    · rw [if_neg hz, if_neg (by omega : ¬zb - za = 0)]
      rw [fneg_roundAt]
      rw [show (zb - za).natAbs = (za - zb).natAbs by omega]
      rw [show (decide (zb - za < 0)) = !(decide (za - zb < 0)) by
        by_cases hlt : za - zb < 0 <;> simp [hlt] <;> omega]
      rw [Bool.not_not]
      exact feq_refl _ (roundAt_not_nan ..)
  case inf.inf s t =>
    cases s <;> cases t <;> simp_all [fsub, fneg, feq, isNaN]
  all_goals simp_all [fsub, fneg, feq, isNaN]

theorem fdiv_zero_right (x : F32) (t : Bool) :
    (isInf (fdiv x (.zero t)) || isNaN (fdiv x (.zero t))) = true := by
  cases x <;> rfl

theorem isZero_elim {x : F32} (h : isZero x = true) : ∃ t, x = .zero t := by
  cases x <;> simp [isZero] at h
  exact ⟨_, rfl⟩

end Glam

namespace Glam

/-- C1: the spec's regression check `v.RotateAxis((0,0,1), angle) ==
v.RotateZ(angle)` fails on the code.  At `v = (0,0,1)`, `angle = 1.0` the X
component of `RotateAxis` is `sin 1 ≈ 0.8414710` while `RotateZ` gives `0`:
the matrix entry `rm0.Z` is built from `s*u.Z` where the Rodrigues formula
requires `s*u.Y`, so `v.Z*sin(angle)` leaks into the X component. -/
theorem claim_C1_code_eval :
    Vec3.RotateAxis stdTrig ⟨pzero, pzero, one⟩ ⟨pzero, pzero, one⟩ one ≠
      Vec3.RotateZ stdTrig ⟨pzero, pzero, one⟩ one ∧
    (Vec3.RotateAxis stdTrig ⟨pzero, pzero, one⟩ ⟨pzero, pzero, one⟩ one).X =
      stdTrig.Sin one ∧
    (Vec3.RotateZ stdTrig ⟨pzero, pzero, one⟩ one).X = pzero :=
  ⟨by decide, by decide, by decide⟩

/-- C2: no operation validates its input: division of any vector by a zero
scalar, normalization of a zero vector, and dehomogenization with a zero
`Z` (Vec3) or `W` (Vec4) are all total and produce IEEE-754 infinities or
NaNs componentwise, for both the pure and the in-place variants. -/
theorem claim_C2 (v : Vec3) (u : Vec4) (d x y z : F32)
    (hd : isZero d = true) (hx : isZero x = true) (hy : isZero y = true)
    (hz : isZero z = true) :
    infNan3 (v.Slash d) ∧ infNan3 (Vec3.Divide v d) ∧
    infNan4 (u.Slash d) ∧ infNan4 (Vec4.Divide u d) ∧
    nan3 (Vec3.Normalized ⟨x, y, z⟩) ∧ nan3 (Vec3.Normalize ⟨x, y, z⟩) ∧
    nan4 (Vec4.Normalized ⟨x, y, z, d⟩) ∧ nan4 (Vec4.Normalize ⟨x, y, z, d⟩) ∧
    infNan2 (Vec3.Dehomogenized ⟨v.X, v.Y, d⟩) ∧
    infNan3 (Vec4.Dehomogenized ⟨u.X, u.Y, u.Z, d⟩) := by
  obtain ⟨td, rfl⟩ := isZero_elim hd
  obtain ⟨tx, rfl⟩ := isZero_elim hx
  obtain ⟨ty, rfl⟩ := isZero_elim hy
  obtain ⟨tz, rfl⟩ := isZero_elim hz
  exact ⟨⟨fdiv_zero_right .., fdiv_zero_right .., fdiv_zero_right ..⟩,
    ⟨fdiv_zero_right .., fdiv_zero_right .., fdiv_zero_right ..⟩,
    ⟨fdiv_zero_right .., fdiv_zero_right .., fdiv_zero_right .., fdiv_zero_right ..⟩,
    ⟨fdiv_zero_right .., fdiv_zero_right .., fdiv_zero_right .., fdiv_zero_right ..⟩,
    ⟨rfl, rfl, rfl⟩, ⟨rfl, rfl, rfl⟩, ⟨rfl, rfl, rfl, rfl⟩, ⟨rfl, rfl, rfl, rfl⟩,
    ⟨fdiv_zero_right .., fdiv_zero_right ..⟩,
    ⟨fdiv_zero_right .., fdiv_zero_right .., fdiv_zero_right ..⟩⟩

/-- Witness for C2 at concrete inputs. -/
theorem claim_C2_witness :
    isZero pzero = true ∧
    (infNan3 (Vec3.Slash ⟨one, one, one⟩ pzero) ∧
     infNan3 (Vec3.Divide ⟨one, one, one⟩ pzero) ∧
     infNan4 (Vec4.Slash ⟨one, one, one, one⟩ pzero) ∧
     infNan4 (Vec4.Divide ⟨one, one, one, one⟩ pzero) ∧
     nan3 (Vec3.Normalized ⟨pzero, pzero, pzero⟩) ∧
     nan3 (Vec3.Normalize ⟨pzero, pzero, pzero⟩) ∧
     nan4 (Vec4.Normalized ⟨pzero, pzero, pzero, pzero⟩) ∧
     nan4 (Vec4.Normalize ⟨pzero, pzero, pzero, pzero⟩) ∧
     infNan2 (Vec3.Dehomogenized ⟨one, one, pzero⟩) ∧
     infNan3 (Vec4.Dehomogenized ⟨one, one, one, pzero⟩)) :=
  ⟨rfl, claim_C2 ⟨one, one, one⟩ ⟨one, one, one, one⟩ pzero pzero pzero pzero
    rfl rfl rfl rfl⟩

/-- C3: `Vec4.Cross` computes the 3D cross product of the XYZ components
(it agrees with `Vec3.Cross` on them), copies `a.W` into the result's `W`,
and ignores `b.W` entirely. -/
theorem claim_C3 (a b : Vec4) (w : F32) :
    (a.Cross b).X = (Vec3.Cross ⟨a.X, a.Y, a.Z⟩ ⟨b.X, b.Y, b.Z⟩).X ∧
    (a.Cross b).Y = (Vec3.Cross ⟨a.X, a.Y, a.Z⟩ ⟨b.X, b.Y, b.Z⟩).Y ∧
    (a.Cross b).Z = (Vec3.Cross ⟨a.X, a.Y, a.Z⟩ ⟨b.X, b.Y, b.Z⟩).Z ∧
    (a.Cross b).W = a.W ∧
    a.Cross ⟨b.X, b.Y, b.Z, w⟩ = a.Cross b :=
  ⟨rfl, rfl, rfl, rfl, rfl⟩

/-- C4: every pure operation agrees bit-for-bit with its in-place
counterpart (modelled as the final receiver value after the sequential
field updates), for Vec3 and Vec4. -/
theorem claim_C4 (a b : Vec3) (c d : Vec4) (s : F32) :
    a.Plus b = Vec3.Add a b ∧
    a.Minus b = Vec3.Subtract a b ∧
    a.Inverse = Vec3.Invert a ∧
    a.Times s = Vec3.Multiply a s ∧
    a.Slash s = Vec3.Divide a s ∧
    a.Normalized = Vec3.Normalize a ∧
    c.Plus d = Vec4.Add c d ∧
    c.Minus d = Vec4.Subtract c d ∧
    c.Inverse = Vec4.Invert c ∧
    c.Times s = Vec4.Multiply c s ∧
    c.Slash s = Vec4.Divide c s ∧
    c.Normalized = Vec4.Normalize c :=
  ⟨rfl, rfl, rfl, rfl, rfl, rfl, rfl, rfl, rfl, rfl, rfl, rfl⟩

/-- C5: with angle `0.0` every rotation takes the fast path and returns the
input vector bit-for-bit, for any trig implementation and any axis. -/
theorem claim_C5 (ops : Trig) (v axis : Vec3) :
    v.RotateX ops pzero = v ∧
    v.RotateY ops pzero = v ∧
    v.RotateZ ops pzero = v ∧
    v.RotateAxis ops axis pzero = v :=
  ⟨rfl, rfl, rfl, rfl⟩

/-- C8: `a.Minus(b)` equals `a.Plus(b.Inverse())` componentwise and
bitwise, for Vec3 and Vec4: IEEE-754 subtraction coincides with addition of
the negation in every case, including NaN, infinities and signed zeros. -/
theorem claim_C8 (a b : Vec3) (c d : Vec4) :
    a.Minus b = a.Plus b.Inverse ∧ c.Minus d = c.Plus d.Inverse := by
  refine ⟨?_, ?_⟩ <;>
    simp [Vec3.Minus, Vec3.Plus, Vec3.Inverse, Vec4.Minus, Vec4.Plus,
      Vec4.Inverse, fsub_eq_fadd_fneg]

/-- C9: each principal-axis rotation leaves its own axis component
untouched bit-for-bit, whether or not the `angle == 0.0` fast path is
taken. -/
theorem claim_C9 (ops : Trig) (v : Vec3) (angle : F32) :
    (v.RotateX ops angle).X = v.X ∧
    (v.RotateY ops angle).Y = v.Y ∧
    (v.RotateZ ops angle).Z = v.Z := by
  refine ⟨?_, ?_, ?_⟩
  · unfold Vec3.RotateX; split <;> rfl
  · unfold Vec3.RotateY; split <;> rfl
  · unfold Vec3.RotateZ; split <;> rfl

/-- C10: rotating around the zero axis with any angle that misses the fast
path normalizes `(0,0,0)`, dividing by the zero length; the resulting NaNs
propagate through every matrix entry and dot product, so all three result
components are NaN, for any trig implementation and any input vector. -/
theorem claim_C10 (ops : Trig) (v : Vec3) (angle : F32)
    (h : feq angle pzero = false) :
    nan3 (v.RotateAxis ops ⟨pzero, pzero, pzero⟩ angle) := by
  unfold Vec3.RotateAxis
  rw [if_neg (by simp [h])]
  rw [show Vec3.Normalized ⟨pzero, pzero, pzero⟩ = ⟨.nan, .nan, .nan⟩ from rfl]
  simp [nan3, Vec3.Dot, fmul_nan_left, fmul_nan_right, fadd_nan_left,
    fadd_nan_right, fsub_nan_left, fsub_nan_right, isNaN]

/-- Witness for C10 at concrete inputs. -/
theorem claim_C10_witness :
    feq one pzero = false ∧
    nan3 (Vec3.RotateAxis stdTrig ⟨one, one, one⟩ ⟨pzero, pzero, pzero⟩ one) :=
  ⟨rfl, claim_C10 stdTrig ⟨one, one, one⟩ one rfl⟩

end Glam

namespace Glam

theorem cross_comp (p q r t : F32)
    (h : isNaN (fsub (fmul p q) (fmul r t)) = false) :
    feq (fsub (fmul p q) (fmul r t)) (fneg (fsub (fmul t r) (fmul q p))) = true := by
  rw [fmul_comm t r, fmul_comm q p]
  exact fsub_antisymm _ _ h

/-- C7 counterexample: as stated (`==` on every pair) the claim is false:
with `a = (NaN,0,0)` and `b = (0,0,0)` both sides' Z components are NaN and
IEEE `==` on NaN is false. -/
theorem claim_C7_counterexample :
    ¬ (feq ((Vec3.Cross ⟨.nan, pzero, pzero⟩ ⟨pzero, pzero, pzero⟩).Z)
        (((Vec3.Cross ⟨pzero, pzero, pzero⟩ ⟨.nan, pzero, pzero⟩).Inverse).Z) = true) := by
  decide

/-- C7 (amended): cross-product anti-commutativity `a.Cross(b) ==
b.Cross(a).Inverse()` holds componentwise under IEEE `==` for every
component that is not NaN (for Vec4, on the X, Y, Z components). -/
theorem claim_C7_amended (a b : Vec3) (c d : Vec4) :
    (isNaN (a.Cross b).X = false → feq (a.Cross b).X (b.Cross a).Inverse.X = true) ∧
    (isNaN (a.Cross b).Y = false → feq (a.Cross b).Y (b.Cross a).Inverse.Y = true) ∧
    (isNaN (a.Cross b).Z = false → feq (a.Cross b).Z (b.Cross a).Inverse.Z = true) ∧
    (isNaN (c.Cross d).X = false → feq (c.Cross d).X (d.Cross c).Inverse.X = true) ∧
    (isNaN (c.Cross d).Y = false → feq (c.Cross d).Y (d.Cross c).Inverse.Y = true) ∧
    (isNaN (c.Cross d).Z = false → feq (c.Cross d).Z (d.Cross c).Inverse.Z = true) :=
  ⟨fun h => cross_comp _ _ _ _ h, fun h => cross_comp _ _ _ _ h,
   fun h => cross_comp _ _ _ _ h, fun h => cross_comp _ _ _ _ h,
   fun h => cross_comp _ _ _ _ h, fun h => cross_comp _ _ _ _ h⟩

/-- Witness for the amended C7 at concrete inputs. -/
theorem claim_C7_amended_witness :
    isNaN (Vec3.Cross ⟨one, pzero, pzero⟩ ⟨pzero, one, pzero⟩).X = false ∧
    feq (Vec3.Cross ⟨one, pzero, pzero⟩ ⟨pzero, one, pzero⟩).X
      ((Vec3.Cross ⟨pzero, one, pzero⟩ ⟨one, pzero, pzero⟩).Inverse).X = true :=
  ⟨by decide,
   (claim_C7_amended ⟨one, pzero, pzero⟩ ⟨pzero, one, pzero⟩
     ⟨one, one, one, one⟩ ⟨one, one, one, one⟩).1 (by decide)⟩

end Glam

namespace Glam

theorem log2fuel_spec : ∀ (f n : Nat), 0 < n → n ≤ f →
    2 ^ log2fuel f n ≤ n ∧ n < 2 ^ (log2fuel f n + 1) := by
  intro f
  induction f with
  | zero => intro n h1 h2; omega
  | succ f ih =>
    intro n h1 h2
    show 2 ^ (if n ≤ 1 then 0 else log2fuel f (n / 2) + 1) ≤ n ∧
      n < 2 ^ ((if n ≤ 1 then 0 else log2fuel f (n / 2) + 1) + 1)
    by_cases hn : n ≤ 1
    · rw [if_pos hn]
      simp only [pow_zero, zero_add, pow_one]
      omega
    · rw [if_neg hn]
      obtain ⟨r1, r2⟩ := ih (n / 2) (by omega) (by omega)
      constructor
      · rw [pow_succ]
        omega
      · simp only [pow_succ] at r2 ⊢
        omega

theorem flog2_spec (n : Nat) (h : 0 < n) :
    2 ^ flog2 n ≤ n ∧ n < 2 ^ (flog2 n + 1) :=
  log2fuel_spec n n h le_rfl

theorem flog2_unique {n u : Nat} (h1 : 2 ^ u ≤ n) (h2 : n < 2 ^ (u + 1)) :
    flog2 n = u := by
  have hn : 0 < n := lt_of_lt_of_le (Nat.pos_pow_of_pos u (by norm_num)) h1
  obtain ⟨r1, r2⟩ := flog2_spec n hn
  by_contra hne
  rcases Nat.lt_or_ge (flog2 n) u with hlt | hge
  · have : 2 ^ (flog2 n + 1) ≤ 2 ^ u := Nat.pow_le_pow_right (by norm_num) (by omega)
    omega
  · have : 2 ^ (u + 1) ≤ 2 ^ flog2 n := Nat.pow_le_pow_right (by norm_num) (by omega)
    omega

theorem rne_exact (m k : Nat) (hk : 0 < k) : rne (m * k) k = m := by
  unfold rne
  rw [Nat.mul_div_cancel _ hk, Nat.mul_mod_left]
  rw [if_pos (by omega : 2 * 0 < k)]

theorem flog2_mul_pow {m : Nat} (a : Nat) (h : 0 < m) :
    flog2 (m * 2 ^ a) = flog2 m + a := by
  obtain ⟨r1, r2⟩ := flog2_spec m h
  apply flog2_unique
  · rw [pow_add]
    exact Nat.mul_le_mul_right _ r1
  · calc m * 2 ^ a < 2 ^ (flog2 m + 1) * 2 ^ a :=
        (Nat.mul_lt_mul_right (Nat.pos_pow_of_pos a (by norm_num))).mpr r2
      _ = 2 ^ (flog2 m + a + 1) := by rw [← pow_add]; congr 1; omega

theorem flog2_pow (b : Nat) : flog2 (2 ^ b) = b :=
  flog2_unique le_rfl (Nat.pow_lt_pow_right (by norm_num) (by omega))

/-- Rounding a value that is exactly representable in canonical form
returns that canonical form: the key exactness property of
round-to-nearest-even. -/
theorem roundCore_exact (p : Int) (m a b : Nat)
    (h1 : 1 ≤ m) (h2 : m < 2 ^ 24) (h3 : -149 ≤ p) (h4 : p ≤ 104)
    (h5 : 2 ^ 23 ≤ m ∨ p = -149) (hab : (a : Int) - b = p) :
    roundCore (m * 2 ^ a) (2 ^ b) = .rfin p m := by
  have hm0 : 0 < m := h1
  obtain ⟨hlm1, hlm2⟩ := flog2_spec m hm0
  have hA : flog2 (m * 2 ^ a) = flog2 m + a := flog2_mul_pow a hm0
  have hB : flog2 (2 ^ b) = b := flog2_pow b
  set lm := flog2 m with hlmdef
  have hlm23 : lm ≤ 23 := by
    by_contra hcon
    have : 2 ^ 24 ≤ 2 ^ lm := Nat.pow_le_pow_right (by norm_num) (by omega)
    omega
  have he0 : ((flog2 m + a : Nat) : Int) - ((b : Nat) : Int) = (lm : Int) + p := by
    push_cast
    omega
  have hne : pow2le ((lm : Int) + p) (m * 2 ^ a) (2 ^ b) = true := by
    unfold pow2le
    by_cases hsgn : (0 : Int) ≤ (lm : Int) + p
    · rw [if_pos hsgn]
      simp only [decide_eq_true_eq]
      have hexp : b + ((lm : Int) + p).toNat = lm + a := by omega
      calc 2 ^ b * 2 ^ ((lm : Int) + p).toNat
          = 2 ^ (b + ((lm : Int) + p).toNat) := (pow_add 2 b _).symm
        _ = 2 ^ (lm + a) := by rw [hexp]
        _ = 2 ^ lm * 2 ^ a := pow_add 2 lm a
        _ ≤ m * 2 ^ a := Nat.mul_le_mul_right _ hlm1
    · rw [if_neg hsgn]
      simp only [decide_eq_true_eq]
      have hexp : lm + (a + (-((lm : Int) + p)).toNat) = b := by omega
      calc (2 : Nat) ^ b = 2 ^ (lm + (a + (-((lm : Int) + p)).toNat)) := by rw [hexp]
        _ = 2 ^ lm * (2 ^ a * 2 ^ (-((lm : Int) + p)).toNat) := by
            rw [pow_add, pow_add]
        _ ≤ m * (2 ^ a * 2 ^ (-((lm : Int) + p)).toNat) :=
            Nat.mul_le_mul_right _ hlm1
        _ = m * 2 ^ a * 2 ^ (-((lm : Int) + p)).toNat := (mul_assoc ..).symm
  have hp : max ((lm : Int) + p - 23) (-149) = p := by
    by_cases hc : 2 ^ 23 ≤ m
    · have hlm : lm = 23 := flog2_unique hc h2
      rw [hlm]
      rw [show ((23 : Nat) : Int) + p - 23 = p by push_cast; ring]
      exact max_eq_left (by omega)
    · have hm23 : m < 2 ^ 23 := by omega
      have hlm22 : lm < 23 := by
        by_contra hcon
        have : 2 ^ 23 ≤ 2 ^ lm := Nat.pow_le_pow_right (by norm_num) (by omega)
        omega
      have hp149 : p = -149 := h5.resolve_left hc
      rw [hp149]
      exact max_eq_right (by omega)
  have hrne : rne (m * 2 ^ a * 2 ^ (max (-p) 0).toNat)
      (2 ^ b * 2 ^ (max p 0).toNat) = m := by
    have hexp : a + (max (-p) 0).toNat = b + (max p 0).toNat := by
      rcases le_total 0 p with hp0 | hp0
      · rw [max_eq_right (by omega : -p ≤ 0), max_eq_left hp0]
        omega
      · rw [max_eq_left (by omega : 0 ≤ -p), max_eq_right hp0]
        omega
    have hnum : m * 2 ^ a * 2 ^ (max (-p) 0).toNat =
        m * (2 ^ b * 2 ^ (max p 0).toNat) := by
      rw [mul_assoc, ← pow_add, ← pow_add, hexp]
    rw [hnum]
    exact rne_exact _ _ (by positivity)
  unfold roundCore
  simp only [hA, hB, he0, hne, if_true]
  rw [hp, hrne]
  rw [if_neg (by omega : ¬m = 0)]
  rw [if_neg (by omega : ¬2 ^ 24 ≤ m)]
  rw [if_neg (by omega : ¬(104 : Int) < p)]

/-- Division by the float constant `1.0` is the identity on every
well-formed binary32 value, including NaN, infinities and signed zeros. -/
theorem fdiv_one (x : F32) (h : wf x = true) : fdiv x one = x := by
  cases x
  case nan => rfl
  case inf s => show F32.inf (xor s false) = F32.inf s; rw [Bool.xor_false]
  case zero s => show F32.zero (xor s false) = F32.zero s; rw [Bool.xor_false]
  case finite s p m =>
    simp only [wf, Bool.and_eq_true, Bool.or_eq_true, decide_eq_true_eq] at h
    obtain ⟨⟨⟨⟨h1, h2⟩, h3⟩, h4⟩, h5⟩ := h
    show roundScaled (xor s false) (m * 2 ^ (max (p - (-23)) 0).toNat)
      (2 ^ 23 * 2 ^ (max ((-23) - p) 0).toNat) = F32.finite s p m
    have hB : (2 : Nat) ^ 23 * 2 ^ (max ((-23) - p) 0).toNat =
        2 ^ (23 + (max ((-23) - p) 0).toNat) := (pow_add 2 23 _).symm
    rw [hB, Bool.xor_false]
    unfold roundScaled
    rw [roundCore_exact p m _ _ h1 h2 h3 h4 h5 (by omega)]

/-- C6: homogenizing a Vec3 (appending `W = 1.0`) and dehomogenizing the
resulting Vec4 (dividing by `W`) returns the original vector bit-for-bit,
because IEEE-754 division by exactly `1.0` is the identity. -/
theorem claim_C6 (v : Vec3) (hx : wf v.X = true) (hy : wf v.Y = true)
    (hz : wf v.Z = true) :
    (v.Homogenized).Dehomogenized = v := by
  obtain ⟨x, y, z⟩ := v
  show Vec3.mk (fdiv x one) (fdiv y one) (fdiv z one) = ⟨x, y, z⟩
  rw [fdiv_one x hx, fdiv_one y hy, fdiv_one z hz]

/-- Witness for C6 at a concrete vector with a normal value, a negative
zero and a subnormal. -/
theorem claim_C6_witness :
    wf one = true ∧ wf mzero = true ∧ wf (.finite true (-149) 5) = true ∧
    Vec4.Dehomogenized (Vec3.Homogenized ⟨one, mzero, .finite true (-149) 5⟩) =
      ⟨one, mzero, .finite true (-149) 5⟩ :=
  ⟨by decide, by decide, by decide,
   claim_C6 ⟨one, mzero, .finite true (-149) 5⟩ (by decide) (by decide) (by decide)⟩

end Glam
